import Mathlib

/-!
Verification of the core logic of the `topik-flashcards` application
(`src/app/src/App.jsx`): the spaced-repetition scheduler (`reviewCard`,
`isDue`) and the fuzzy answer matcher (`normalizeAnswer`, `levenshtein`,
`isCloseMatch`).

Modelling choices:
* JS numbers are modelled as `ℚ` (all arithmetic in the core is exact on
  the values that occur: sums, differences, `max`/`min`, products and
  `Math.round`); timestamps are `ℚ` as well.
* A card record is modelled by `Card α`: the six scheduling fields, each
  optional (absent ⇔ `none`, matching the `??=` nullish-coalescing
  defaults in the source), plus a field `extra : α` standing for all the
  non-scheduling fields that the object spread `{...card}` copies
  untouched (word, meaning, pos, level, ...).
* After `reviewCard` runs, every scheduling field is populated, so the
  result is a fully hydrated record `HCard α`.
* JS strings are modelled as Lean `String` (a list of characters);
  `toLowerCase` is modelled by the character-wise `Char.toLower` and
  `\s` by `Char.isWhitespace`.
-/

namespace Topik

/-- `MIN_EASE` from the source (`const MIN_EASE = 1.3`). -/
def MIN_EASE : ℚ := 1.3

/-- `addMinutes(ts, minutes)` from the source. -/
def addMinutes (ts minutes : ℚ) : ℚ := ts + minutes * 60 * 1000

/-- `addHours(ts, hours)` from the source. -/
def addHours (ts hours : ℚ) : ℚ := ts + hours * 60 * 60 * 1000

/-- `addDays(ts, days)` from the source. -/
def addDays (ts days : ℚ) : ℚ := ts + days * 24 * 60 * 60 * 1000

/-- JavaScript `Math.round`: round to the nearest integer, halves toward
positive infinity. -/
def jsRound (q : ℚ) : ℤ := ⌊q + 1/2⌋

/-- A card record as seen by the scheduler: each scheduling field may be
absent (`none`), `extra` stands for every other field of the record. -/
structure Card (α : Type) where
  ease : Option ℚ
  intervalDays : Option ℚ
  reps : Option ℚ
  lapses : Option ℚ
  state : Option String
  due : Option ℚ
  extra : α

/-- A fully hydrated card record: every scheduling field present. -/
structure HCard (α : Type) where
  ease : ℚ
  intervalDays : ℚ
  reps : ℚ
  lapses : ℚ
  state : String
  due : ℚ
  extra : α

/-- The default-filling prelude of `reviewCard`
(`c.ease ??= 2.5; c.intervalDays ??= 0; c.reps ??= 0; c.lapses ??= 0;
c.state ??= "new"; c.due ??= now;`). -/
def hydrate {α : Type} (card : Card α) (now : ℚ) : HCard α where
  ease := card.ease.getD 2.5
  intervalDays := card.intervalDays.getD 0
  reps := card.reps.getD 0
  lapses := card.lapses.getD 0
  state := card.state.getD "new"
  due := card.due.getD now
  extra := card.extra

/-- View a fully hydrated record as a card record (every field present). -/
def toCard {α : Type} (h : HCard α) : Card α where
  ease := some h.ease
  intervalDays := some h.intervalDays
  reps := some h.reps
  lapses := some h.lapses
  state := some h.state
  due := some h.due
  extra := h.extra

/-- `reviewCard(card, action, now)` from the source: hydrate the copy of
the card with defaults, then branch on the action string; any action other
than `"again"` and `"learning"` takes the final (success) branch. -/
def reviewCard {α : Type} (card : Card α) (action : String) (now : ℚ) :
    HCard α :=
  let c := hydrate card now
  if action = "again" then
    { c with
      lapses := c.lapses + 1
      reps := 0
      intervalDays := 0
      ease := max MIN_EASE (c.ease - 0.2)
      state := "learning"
      due := addMinutes now 10 }
  else if action = "learning" then
    { c with
      state := "learning"
      reps := min (c.reps + 1) 2
      due := addHours now 6 }
  else
    let reps := c.reps + 1
    let intervalDays : ℚ :=
      if c.intervalDays ≤ 0 then 1
      else if c.intervalDays = 1 then 3
      else (jsRound (c.intervalDays * c.ease) : ℚ)
    { c with
      reps := reps
      intervalDays := intervalDays
      ease := c.ease + 0.05
      state := "known"
      due := addDays now intervalDays }

/-- `isDue(card, now)` from the source: `(card.due ?? 0) <= now`. -/
def isDue {α : Type} (card : Card α) (now : ℚ) : Bool :=
  decide (card.due.getD 0 ≤ now)

/-- Apply a nonempty run of consecutive `"again"` grades, one per
timestamp in `t :: ts`, rehydrating the resulting record between grades. -/
def applyAgains {α : Type} (card : Card α) (t : ℚ) (ts : List ℚ) :
    HCard α :=
  match ts with
  | [] => reviewCard card "again" t
  | t' :: ts' => applyAgains (toCard (reviewCard card "again" t)) t' ts'

/-- `normalizeAnswer(s)` from the source:
`String(s ?? "").trim().replace(/\s+/g, "").toLowerCase()` — every
whitespace character is removed (trimming is subsumed by the global
whitespace strip), then the remaining characters are lowercased. -/
def normalizeAnswer (s : String) : String :=
  ⟨(s.data.filter fun c => !c.isWhitespace).map Char.toLower⟩

/-- Read entry `dp[i][j]` of the table (out-of-range reads default). -/
def getCell (dp : List (List ℕ)) (i j : ℕ) : ℕ :=
  (dp.getD i []).getD j 0

/-- In-place update `dp[i][j] = v` of the table. -/
def setCell (dp : List (List ℕ)) (i j v : ℕ) : List (List ℕ) :=
  dp.set i ((dp.getD i []).set j v)

/-- `Array.from({ length: n + 1 }, () => Array(m + 1).fill(0))`. -/
def dpInit (n m : ℕ) : List (List ℕ) :=
  List.replicate (n + 1) (List.replicate (m + 1) 0)

/-- The two border loops:
`for (let i = 0; i <= n; i++) dp[i][0] = i;`
`for (let j = 0; j <= m; j++) dp[0][j] = j;` -/
def dpBorders (n m : ℕ) (dp : List (List ℕ)) : List (List ℕ) :=
  let dp1 := (List.range (n + 1)).foldl (fun dp i => setCell dp i 0 i) dp
  (List.range (m + 1)).foldl (fun dp j => setCell dp 0 j j) dp1

/-- `const cost = s[i - 1] === t[j - 1] ? 0 : 1;` -/
def dpCost (s t : List Char) (i j : ℕ) : ℕ :=
  if s.getD (i - 1) default = t.getD (j - 1) default then 0 else 1

/-- The loop body
`dp[i][j] = Math.min(dp[i-1][j] + 1, dp[i][j-1] + 1, dp[i-1][j-1] + cost);` -/
def dpStep (s t : List Char) (dp : List (List ℕ)) (i j : ℕ) :
    List (List ℕ) :=
  setCell dp i j
    (min (getCell dp (i - 1) j + 1)
      (min (getCell dp i (j - 1) + 1)
        (getCell dp (i - 1) (j - 1) + dpCost s t i j)))

/-- The nested fill loops `for (let i = 1; i <= n; i++) for (let j = 1;
j <= m; j++) ...` -/
def dpMain (s t : List Char) (n m : ℕ) (dp : List (List ℕ)) :
    List (List ℕ) :=
  (List.range' 1 n).foldl
    (fun dp i => (List.range' 1 m).foldl (fun dp j => dpStep s t dp i j) dp)
    dp

/-- `levenshtein(a, b)` from the source: normalize both inputs, handle the
empty cases, then fill the `(n+1) × (m+1)` table and return `dp[n][m]`. -/
def levenshtein (a b : String) : ℕ :=
  let s := (normalizeAnswer a).data
  let t := (normalizeAnswer b).data
  let n := s.length
  let m := t.length
  if n = 0 then m
  else if m = 0 then n
  else getCell (dpMain s t n m (dpBorders n m (dpInit n m))) n m

/-- `isCloseMatch(typed, answer)` from the source. -/
def isCloseMatch (typed answer : String) : Bool :=
  let a := normalizeAnswer answer
  let t := normalizeAnswer typed
  if t = "" then false
  else if t = a then true
  else
    let dist := levenshtein t a
    let tol : ℕ := if 6 ≤ a.length then 2 else 1
    decide (dist ≤ tol)

/-- Modelled from the spec: the dynamic-programming recurrence that the
spec states for the edit distance — `dp[i][0] = i`, `dp[0][j] = j`,
`dp[i][j] = min(dp[i-1][j] + 1, dp[i][j-1] + 1, dp[i-1][j-1] + (s[i-1] !=
t[j-1] ? 1 : 0))` — as a recursive function of the two indices. -/
def levRec (s t : List Char) : ℕ → ℕ → ℕ
  | 0, j => j
  | i + 1, 0 => i + 1
  | i + 1, j + 1 =>
      min (levRec s t i (j + 1) + 1)
        (min (levRec s t (i + 1) j + 1)
          (levRec s t i j + if s.getD i default = t.getD j default then 0 else 1))
  termination_by i j => (i, j)

/-- Modelled from the spec: the classic Levenshtein distance between two
character lists (insertions, deletions and substitutions each costing 1),
written as the textbook recursion on the last characters. -/
def levClassic (s t : List Char) : ℕ :=
  if hs : s = [] then t.length
  else if ht : t = [] then s.length
  else
    min (levClassic s.dropLast t + 1)
      (min (levClassic s t.dropLast + 1)
        (levClassic s.dropLast t.dropLast +
          if s.getLast hs = t.getLast ht then 0 else 1))
  termination_by (s.length, t.length)
  decreasing_by
    · exact Prod.Lex.left _ _ (by
        rw [List.length_dropLast]
        have := List.length_pos.mpr hs
        omega)
    · exact Prod.Lex.right _ (by
        rw [List.length_dropLast]
        have := List.length_pos.mpr ht
        omega)
    · exact Prod.Lex.left _ _ (by
        rw [List.length_dropLast]
        have := List.length_pos.mpr hs
        omega)

/-- The table built by `levenshtein` is an `(n+1)`-row list whose rows all
have length `m+1`. -/
def Shaped (dp : List (List ℕ)) (n m : ℕ) : Prop :=
  dp.length = n + 1 ∧ ∀ r ∈ dp, r.length = m + 1

/-- C1: grading a hydrated card `"known"` increments `reps`, applies the
three-way interval policy (`1` / `3` / `round(intervalDays * ease)` with the
pre-increment ease), then adds `0.05` to `ease`, sets `state := "known"` and
sets `due := now` plus the updated interval at 86 400 000 ms per day; the
other fields (`lapses`, everything in `extra`) are untouched. -/
theorem reviewCard_known_spec (α : Type) (e i r l : ℚ) (st : String)
    (d : ℚ) (x : α) (now : ℚ) :
    reviewCard ⟨some e, some i, some r, some l, some st, some d, x⟩ "known" now =
      { ease := e + 0.05
        intervalDays := if i ≤ 0 then 1 else if i = 1 then 3
          else (jsRound (i * e) : ℚ)
        reps := r + 1
        lapses := l
        state := "known"
        due := now + (if i ≤ 0 then 1 else if i = 1 then 3
          else (jsRound (i * e) : ℚ)) * 86400000
        extra := x } := by
  have hd : ∀ ts q : ℚ, addDays ts q = ts + q * 86400000 := by
    intro ts q
    simp only [addDays]
    ring
  simp only [reviewCard, hydrate, Option.getD_some,
    if_neg (show ¬("known" : String) = "again" by decide),
    if_neg (show ¬("known" : String) = "learning" by decide), hd]

/-- C2: grading a hydrated card `"again"` increments `lapses` by 1, resets
`reps` and `intervalDays` to 0, sets `ease := max 1.3 (ease - 0.2)`,
`state := "learning"` and `due := now + 600000` ms (10 minutes); every other
field is unchanged. -/
theorem reviewCard_again_spec (α : Type) (e i r l : ℚ) (st : String)
    (d : ℚ) (x : α) (now : ℚ) :
    reviewCard ⟨some e, some i, some r, some l, some st, some d, x⟩ "again" now =
      { ease := max 1.3 (e - 0.2)
        intervalDays := 0
        reps := 0
        lapses := l + 1
        state := "learning"
        due := now + 600000
        extra := x } := by
  have hm : addMinutes now 10 = now + 600000 := by
    simp only [addMinutes]
    norm_num
  simp only [reviewCard, hydrate, Option.getD_some, MIN_EASE,
    if_pos (show ("again" : String) = "again" from rfl), ite_true, hm]

/-- C7: grading a hydrated card `"learning"` sets `state := "learning"`,
`reps := min (reps + 1) 2` and `due := now + 21600000` ms (6 hours), and
leaves `ease`, `intervalDays`, `lapses` and every other field unchanged. -/
theorem reviewCard_learning_spec (α : Type) (e i r l : ℚ) (st : String)
    (d : ℚ) (x : α) (now : ℚ) :
    reviewCard ⟨some e, some i, some r, some l, some st, some d, x⟩
        "learning" now =
      { ease := e
        intervalDays := i
        reps := min (r + 1) 2
        lapses := l
        state := "learning"
        due := now + 21600000
        extra := x } := by
  have hh : addHours now 6 = now + 21600000 := by
    simp only [addHours]
    norm_num
  simp only [reviewCard, hydrate, Option.getD_some,
    if_neg (show ¬("learning" : String) = "again" by decide),
    if_pos (show ("learning" : String) = "learning" from rfl), ite_true, hh]

/-- C6: any action string other than `"again"` and `"learning"` is not
rejected and produces exactly the same result as the `"known"` grade. -/
theorem reviewCard_fallthrough (α : Type) (card : Card α) (action : String)
    (now : ℚ) (h1 : action ≠ "again") (h2 : action ≠ "learning") :
    reviewCard card action now = reviewCard card "known" now := by
  simp only [reviewCard, if_neg h1, if_neg h2,
    if_neg (show ¬("known" : String) = "again" by decide),
    if_neg (show ¬("known" : String) = "learning" by decide)]

/-- Witness for C6 at the concrete unrecognized action `"hard"`. -/
theorem reviewCard_fallthrough_witness :
    reviewCard (⟨some 2, some 2, some 1, some 0, some "known", some 0, ()⟩ :
        Card Unit) "hard" 5 =
      reviewCard ⟨some 2, some 2, some 1, some 0, some "known", some 0, ()⟩
        "known" 5 :=
  reviewCard_fallthrough Unit _ "hard" 5 (by decide) (by decide)

/-- C8: `reviewCard` on a record with any subset of scheduling fields
absent equals `reviewCard` on the record with each absent field replaced by
its default (`ease = 2.5`, `intervalDays = 0`, `reps = 0`, `lapses = 0`,
`state = "new"`, `due = now`). -/
theorem reviewCard_hydrate_defaults (α : Type) (card : Card α)
    (action : String) (now : ℚ) :
    reviewCard card action now =
      reviewCard (toCard (hydrate card now)) action now := rfl

/-- C3: the ease floor. Grading any card whose (present) ease is at least
1.3 — with any action at all — yields an ease at least 1.3, and any
nonempty run of consecutive `"again"` grades from any starting record
yields an ease at least 1.3. -/
theorem ease_never_below_min :
    (∀ (α : Type) (card : Card α) (action : String) (now : ℚ),
        (∀ e, card.ease = some e → MIN_EASE ≤ e) →
        MIN_EASE ≤ (reviewCard card action now).ease) ∧
    (∀ (α : Type) (card : Card α) (t : ℚ) (ts : List ℚ),
        MIN_EASE ≤ (applyAgains card t ts).ease) := by
  have hhyd : ∀ (α : Type) (card : Card α) (now : ℚ),
      (∀ e, card.ease = some e → MIN_EASE ≤ e) →
      MIN_EASE ≤ (hydrate card now).ease := by
    intro α card now h
    cases hc : card.ease with
    | none => simp only [hydrate, hc, Option.getD_none]; norm_num [MIN_EASE]
    | some e => simpa only [hydrate, hc, Option.getD_some] using h e hc
  have hone : ∀ (α : Type) (card : Card α) (action : String) (now : ℚ),
      (∀ e, card.ease = some e → MIN_EASE ≤ e) →
      MIN_EASE ≤ (reviewCard card action now).ease := by
    intro α card action now h
    by_cases h1 : action = "again"
    · simp only [reviewCard, if_pos h1]
      exact le_max_left _ _
    · by_cases h2 : action = "learning"
      · simp only [reviewCard, if_neg h1, if_pos h2]
        exact hhyd α card now h
      · simp only [reviewCard, if_neg h1, if_neg h2]
        have := hhyd α card now h
        linarith
  refine ⟨hone, ?_⟩
  intro α card t ts
  induction ts generalizing card t with
  | nil =>
    simp only [applyAgains, reviewCard,
      if_pos (show ("again" : String) = "again" from rfl), ite_true]
    exact le_max_left _ _
  | cons t' ts' ih => exact ih _ _

/-- Witness for C3 at a concrete card, action and timestamp list. -/
theorem ease_never_below_min_witness :
    MIN_EASE ≤ (reviewCard (⟨some 1.5, some 2, some 1, some 0, some "known",
        some 0, ()⟩ : Card Unit) "known" 7).ease ∧
    MIN_EASE ≤ (applyAgains (⟨some 1.5, some 2, some 1, some 0, some "known",
        some 0, ()⟩ : Card Unit) 7 [8, 9]).ease :=
  ⟨ease_never_below_min.1 Unit _ "known" 7
      (by
        intro e he
        rw [Option.some_inj] at he
        rw [← he]
        norm_num [MIN_EASE]),
    ease_never_below_min.2 Unit _ 7 [8, 9]⟩

theorem shaped_dpInit (n m : ℕ) : Shaped (dpInit n m) n m := by
  refine ⟨by simp [dpInit], ?_⟩
  intro r hr
  rw [List.eq_of_mem_replicate hr]
  simp

theorem getD_row_of_lt {dp : List (List ℕ)} {i : ℕ} (hi : i < dp.length) :
    dp.getD i [] = dp[i] := by
  rw [List.getD_eq_getElem?_getD, List.getElem?_eq_getElem hi, Option.getD_some]

theorem shaped_setCell {dp : List (List ℕ)} {n m : ℕ} (h : Shaped dp n m)
    (i j v : ℕ) : Shaped (setCell dp i j v) n m := by
  obtain ⟨hlen, hrow⟩ := h
  by_cases hi : i < dp.length
  · refine ⟨by simp [setCell, hlen], ?_⟩
    intro r hr
    rcases List.mem_or_eq_of_mem_set hr with h1 | h1
    · exact hrow r h1
    · rw [h1, List.length_set, getD_row_of_lt hi]
      exact hrow _ (List.getElem_mem hi)
  · rw [setCell, List.set_eq_of_length_le (Nat.le_of_not_lt hi)]
    exact ⟨hlen, hrow⟩

theorem getCell_setCell_self {dp : List (List ℕ)} {n m : ℕ}
    (h : Shaped dp n m) {i j : ℕ} (hi : i ≤ n) (hj : j ≤ m) (v : ℕ) :
    getCell (setCell dp i j v) i j = v := by
  obtain ⟨hlen, hrow⟩ := h
  have hi' : i < dp.length := by omega
  have hrl : (dp.getD i []).length = m + 1 := by
    rw [getD_row_of_lt hi']
    exact hrow _ (List.getElem_mem hi')
  simp only [getCell, setCell, List.getD_eq_getElem?_getD]
  rw [List.getElem?_set_self hi', Option.getD_some,
    List.getElem?_set_self (by rw [← List.getD_eq_getElem?_getD, hrl]; omega),
    Option.getD_some]

theorem getCell_setCell_ne {dp : List (List ℕ)} {i j i' j' : ℕ}
    (hne : i ≠ i' ∨ j ≠ j') (v : ℕ) :
    getCell (setCell dp i j v) i' j' = getCell dp i' j' := by
  by_cases hii : i = i'
  · subst hii
    have hne' : j ≠ j' := by tauto
    by_cases hi : i < dp.length
    · simp only [getCell, setCell, List.getD_eq_getElem?_getD]
      rw [List.getElem?_set_self hi, Option.getD_some,
        List.getElem?_set_ne hne']
    · rw [setCell, List.set_eq_of_length_le (Nat.le_of_not_lt hi)]
  · simp only [getCell, setCell, List.getD_eq_getElem?_getD]
    rw [List.getElem?_set_ne hii]

theorem foldColZero_shaped (k : ℕ) {dp : List (List ℕ)} {n m : ℕ}
    (h : Shaped dp n m) :
    Shaped ((List.range k).foldl (fun dp i => setCell dp i 0 i) dp) n m := by
  induction k with
  | zero => simpa using h
  | succ k ih =>
    rw [List.range_succ, List.foldl_append, List.foldl_cons, List.foldl_nil]
    exact shaped_setCell ih _ _ _

theorem foldColZero_getCell (k : ℕ) {dp : List (List ℕ)} {n m : ℕ}
    (h : Shaped dp n m) {i j : ℕ} (hi : i ≤ n) (hj : j ≤ m) :
    getCell ((List.range k).foldl (fun dp i => setCell dp i 0 i) dp) i j =
      if i < k ∧ j = 0 then i else getCell dp i j := by
  induction k with
  | zero => simp
  | succ k ih =>
    rw [List.range_succ, List.foldl_append, List.foldl_cons, List.foldl_nil]
    by_cases hij : i = k ∧ j = 0
    · obtain ⟨rfl, rfl⟩ := hij
      rw [getCell_setCell_self (foldColZero_shaped _ h) hi hj]
      rw [if_pos ⟨Nat.lt_succ_self i, rfl⟩]
    · have hne : k ≠ i ∨ 0 ≠ j := by
        by_cases he : i = k
        · exact Or.inr fun hj0 => hij ⟨he, hj0.symm⟩
        · exact Or.inl fun hc => he hc.symm
      rw [getCell_setCell_ne hne, ih]
      by_cases h2 : i < k ∧ j = 0
      · rw [if_pos h2, if_pos ⟨by omega, h2.2⟩]
      · rw [if_neg h2, if_neg ?_]
        rintro ⟨hlt, hj0⟩
        have hik : i ≠ k := fun he => hij ⟨he, hj0⟩
        exact h2 ⟨by omega, hj0⟩

theorem foldRowZero_shaped (k : ℕ) {dp : List (List ℕ)} {n m : ℕ}
    (h : Shaped dp n m) :
    Shaped ((List.range k).foldl (fun dp j => setCell dp 0 j j) dp) n m := by
  induction k with
  | zero => simpa using h
  | succ k ih =>
    rw [List.range_succ, List.foldl_append, List.foldl_cons, List.foldl_nil]
    exact shaped_setCell ih _ _ _

theorem foldRowZero_getCell (k : ℕ) {dp : List (List ℕ)} {n m : ℕ}
    (h : Shaped dp n m) {i j : ℕ} (hi : i ≤ n) (hj : j ≤ m) :
    getCell ((List.range k).foldl (fun dp j => setCell dp 0 j j) dp) i j =
      if i = 0 ∧ j < k then j else getCell dp i j := by
  induction k with
  | zero => simp
  | succ k ih =>
    rw [List.range_succ, List.foldl_append, List.foldl_cons, List.foldl_nil]
    by_cases hij : i = 0 ∧ j = k
    · obtain ⟨rfl, rfl⟩ := hij
      rw [getCell_setCell_self (foldRowZero_shaped _ h) hi hj]
      rw [if_pos ⟨rfl, Nat.lt_succ_self j⟩]
    · have hne : (0 : ℕ) ≠ i ∨ k ≠ j := by
        by_cases he : i = 0
        · exact Or.inr fun hjk => hij ⟨he, hjk.symm⟩
        · exact Or.inl fun hc => he hc.symm
      rw [getCell_setCell_ne hne, ih]
      by_cases h2 : i = 0 ∧ j < k
      · rw [if_pos h2, if_pos ⟨h2.1, by omega⟩]
      · rw [if_neg h2, if_neg ?_]
        rintro ⟨hi0, hlt⟩
        have hjk : j ≠ k := fun he => hij ⟨hi0, he⟩
        exact h2 ⟨hi0, by omega⟩

theorem dpBorders_shaped (n m : ℕ) : Shaped (dpBorders n m (dpInit n m)) n m :=
  foldRowZero_shaped _ (foldColZero_shaped _ (shaped_dpInit n m))

theorem dpBorders_getCell {n m i j : ℕ} (hi : i ≤ n) (hj : j ≤ m) :
    getCell (dpBorders n m (dpInit n m)) i j =
      if i = 0 then j else if j = 0 then i
        else getCell (dpInit n m) i j := by
  show getCell ((List.range (m + 1)).foldl (fun dp j => setCell dp 0 j j)
      ((List.range (n + 1)).foldl (fun dp i => setCell dp i 0 i)
        (dpInit n m))) i j = _
  rw [foldRowZero_getCell (m + 1) (foldColZero_shaped _ (shaped_dpInit n m))
      hi hj,
    foldColZero_getCell (n + 1) (shaped_dpInit n m) hi hj]
  by_cases h0 : i = 0
  · rw [if_pos ⟨h0, by omega⟩, if_pos h0]
  · rw [if_neg (fun hc => h0 hc.1), if_neg h0]
    by_cases hj0 : j = 0
    · rw [if_pos ⟨by omega, hj0⟩, if_pos hj0]
    · rw [if_neg (fun hc => hj0 hc.2), if_neg hj0]

theorem levRec_zero_left (s t : List Char) (j : ℕ) : levRec s t 0 j = j := by
  simp [levRec]

theorem levRec_zero_right (s t : List Char) (i : ℕ) : levRec s t i 0 = i := by
  cases i with
  | zero => simp [levRec]
  | succ i => simp [levRec]

theorem levRec_succ_succ (s t : List Char) (i j : ℕ) :
    levRec s t (i + 1) (j + 1) =
      min (levRec s t i (j + 1) + 1)
        (min (levRec s t (i + 1) j + 1)
          (levRec s t i j +
            if s.getD i default = t.getD j default then 0 else 1)) := by
  simp [levRec]

theorem range'_one_concat (k : ℕ) :
    List.range' 1 (k + 1) = List.range' 1 k ++ [k + 1] := by
  have h1 : 1 + 1 * k = k + 1 := by omega
  rw [List.range'_concat, h1]

theorem dpInner_getCell (s t : List Char) {n m : ℕ} (r' : ℕ)
    (hrn : r' + 1 ≤ n) (k : ℕ) (hk : k ≤ m) {dp : List (List ℕ)}
    (hsh : Shaped dp n m)
    (hprev : ∀ i j, i ≤ n → j ≤ m → (j = 0 ∨ i < r' + 1) →
      getCell dp i j = levRec s t i j) :
    Shaped ((List.range' 1 k).foldl (fun dp j => dpStep s t dp (r' + 1) j) dp)
        n m ∧
    (∀ i j, i ≤ n → j ≤ m → (j = 0 ∨ i < r' + 1 ∨ (i = r' + 1 ∧ j ≤ k)) →
      getCell ((List.range' 1 k).foldl
          (fun dp j => dpStep s t dp (r' + 1) j) dp) i j = levRec s t i j) := by
  induction k with
  | zero =>
    refine ⟨by simpa using hsh, ?_⟩
    intro i j hi hj hcond
    simp only [List.range'_zero, List.foldl_nil]
    rcases hcond with h | h | ⟨h1, h2⟩
    · exact hprev i j hi hj (Or.inl h)
    · exact hprev i j hi hj (Or.inr h)
    · exact hprev i j hi hj (Or.inl (by omega))
  | succ k ih =>
    obtain ⟨ihsh, ihget⟩ := ih (by omega)
    rw [range'_one_concat, List.foldl_append, List.foldl_cons, List.foldl_nil]
    have hv1 : getCell ((List.range' 1 k).foldl
        (fun dp j => dpStep s t dp (r' + 1) j) dp) r' (k + 1) =
          levRec s t r' (k + 1) :=
      ihget _ _ (by omega) (by omega) (Or.inr (Or.inl (by omega)))
    have hv2 : getCell ((List.range' 1 k).foldl
        (fun dp j => dpStep s t dp (r' + 1) j) dp) (r' + 1) k =
          levRec s t (r' + 1) k :=
      ihget _ _ (by omega) (by omega) (Or.inr (Or.inr ⟨rfl, le_rfl⟩))
    have hv3 : getCell ((List.range' 1 k).foldl
        (fun dp j => dpStep s t dp (r' + 1) j) dp) r' k = levRec s t r' k :=
      ihget _ _ (by omega) (by omega) (Or.inr (Or.inl (by omega)))
    have hstep : ∀ G : List (List ℕ), dpStep s t G (r' + 1) (k + 1) =
        setCell G (r' + 1) (k + 1)
          (min (getCell G r' (k + 1) + 1)
            (min (getCell G (r' + 1) k + 1)
              (getCell G r' k + dpCost s t (r' + 1) (k + 1)))) := by
      intro G
      simp only [dpStep, Nat.add_sub_cancel]
    refine ⟨by rw [hstep]; exact shaped_setCell ihsh _ _ _, ?_⟩
    intro i j hi hj hcond
    by_cases hij : i = r' + 1 ∧ j = k + 1
    · obtain ⟨rfl, rfl⟩ := hij
      rw [hstep, getCell_setCell_self ihsh hi hj, hv1, hv2, hv3,
        levRec_succ_succ]
      simp only [dpCost, Nat.add_sub_cancel]
    · have hne : r' + 1 ≠ i ∨ k + 1 ≠ j := by
        by_cases he : i = r' + 1
        · exact Or.inr fun hc => hij ⟨he, hc.symm⟩
        · exact Or.inl fun hc => he hc.symm
      rw [hstep, getCell_setCell_ne hne]
      apply ihget i j hi hj
      rcases hcond with h | h | ⟨h1, h2⟩
      · exact Or.inl h
      · exact Or.inr (Or.inl h)
      · refine Or.inr (Or.inr ⟨h1, ?_⟩)
        have : j ≠ k + 1 := fun hc => hij ⟨h1, hc⟩
        omega

theorem dpMain_getCell (s t : List Char) {n m : ℕ} (R : ℕ)
    {dp : List (List ℕ)} (hsh : Shaped dp n m)
    (hbase : ∀ i j, i ≤ n → j ≤ m → (i = 0 ∨ j = 0) →
      getCell dp i j = levRec s t i j) :
    R ≤ n →
    Shaped ((List.range' 1 R).foldl
        (fun dp i => (List.range' 1 m).foldl
          (fun dp j => dpStep s t dp i j) dp) dp) n m ∧
    (∀ i j, i ≤ n → j ≤ m → (j = 0 ∨ i ≤ R) →
      getCell ((List.range' 1 R).foldl
          (fun dp i => (List.range' 1 m).foldl
            (fun dp j => dpStep s t dp i j) dp) dp) i j = levRec s t i j) := by
  induction R with
  | zero =>
    intro hR
    refine ⟨by simpa using hsh, ?_⟩
    intro i j hi hj hcond
    simp only [List.range'_zero, List.foldl_nil]
    rcases hcond with h | h
    · exact hbase i j hi hj (Or.inr h)
    · exact hbase i j hi hj (Or.inl (by omega))
  | succ R ih =>
    intro hR
    obtain ⟨ihsh, ihget⟩ := ih (by omega)
    rw [range'_one_concat, List.foldl_append, List.foldl_cons, List.foldl_nil]
    obtain ⟨sh2, get2⟩ := dpInner_getCell s t R hR m le_rfl ihsh
      (fun i j hi hj hcond => ihget i j hi hj (by
        rcases hcond with h | h
        · exact Or.inl h
        · exact Or.inr (by omega)))
    refine ⟨sh2, ?_⟩
    intro i j hi hj hcond
    apply get2 i j hi hj
    rcases hcond with h | h
    · exact Or.inl h
    · by_cases hiR : i ≤ R
      · exact Or.inr (Or.inl (by omega))
      · exact Or.inr (Or.inr ⟨by omega, hj⟩)

theorem levClassic_nil_left (t : List Char) : levClassic [] t = t.length := by
  rw [levClassic, dif_pos rfl]

theorem levClassic_nil_right (s : List Char) : levClassic s [] = s.length := by
  rw [levClassic]
  by_cases hs : s = []
  · rw [dif_pos hs, hs]
  · rw [dif_neg hs, dif_pos rfl]

theorem levClassic_step (s t : List Char) (hs : s ≠ []) (ht : t ≠ []) :
    levClassic s t =
      min (levClassic s.dropLast t + 1)
        (min (levClassic s t.dropLast + 1)
          (levClassic s.dropLast t.dropLast +
            if s.getLast hs = t.getLast ht then 0 else 1)) := by
  rw [levClassic, dif_neg hs, dif_neg ht]

theorem levRec_eq_levClassic (s t : List Char) :
    ∀ i j, i ≤ s.length → j ≤ t.length →
      levRec s t i j = levClassic (s.take i) (t.take j) := by
  intro i
  induction i with
  | zero =>
    intro j hi hj
    rw [levRec_zero_left, List.take_zero, levClassic_nil_left,
      List.length_take]
    omega
  | succ i ih =>
    intro j
    induction j with
    | zero =>
      intro hi hj
      rw [levRec_zero_right, List.take_zero, levClassic_nil_right,
        List.length_take]
      omega
    | succ j ihj =>
      intro hi hj
      have hi' : i < s.length := by omega
      have hj' : j < t.length := by omega
      have es : s.take (i + 1) = s.take i ++ [s[i]] := by
        rw [← List.take_concat_get s i hi', List.concat_eq_append]
      have et : t.take (j + 1) = t.take j ++ [t[j]] := by
        rw [← List.take_concat_get t j hj', List.concat_eq_append]
      have h1 : s.take (i + 1) ≠ [] := by
        intro hc
        have hlc := congrArg List.length hc
        rw [List.length_take] at hlc
        simp only [List.length_nil] at hlc
        omega
      have h2 : t.take (j + 1) ≠ [] := by
        intro hc
        have hlc := congrArg List.length hc
        rw [List.length_take] at hlc
        simp only [List.length_nil] at hlc
        omega
      have hd1 : (s.take (i + 1)).dropLast = s.take i := by
        rw [es, List.dropLast_concat]
      have hd2 : (t.take (j + 1)).dropLast = t.take j := by
        rw [et, List.dropLast_concat]
      have hb1 : (s.take (i + 1)).getLast? = some s[i] := by
        rw [es]
        exact List.getLast?_concat _
      have hb2 : (t.take (j + 1)).getLast? = some t[j] := by
        rw [et]
        exact List.getLast?_concat _
      have hg1 : (s.take (i + 1)).getLast h1 = s[i] := by
        rw [List.getLast?_eq_getLast (s.take (i + 1)) h1] at hb1
        exact Option.some_inj.mp hb1
      have hg2 : (t.take (j + 1)).getLast h2 = t[j] := by
        rw [List.getLast?_eq_getLast (t.take (j + 1)) h2] at hb2
        exact Option.some_inj.mp hb2
      have hgd1 : s.getD i default = s[i] := by
        rw [List.getD_eq_getElem?_getD, List.getElem?_eq_getElem hi',
          Option.getD_some]
      have hgd2 : t.getD j default = t[j] := by
        rw [List.getD_eq_getElem?_getD, List.getElem?_eq_getElem hj',
          Option.getD_some]
      rw [levRec_succ_succ, levClassic_step _ _ h1 h2, hd1, hd2, hg1, hg2,
        hgd1, hgd2, ih (j + 1) (by omega) hj, ih j (by omega) (by omega),
        ihj (by omega) (by omega)]

theorem levenshtein_eq_levRec (a b : String) :
    levenshtein a b =
      levRec (normalizeAnswer a).data (normalizeAnswer b).data
        (normalizeAnswer a).data.length (normalizeAnswer b).data.length := by
  simp only [levenshtein]
  by_cases hn : (normalizeAnswer a).data.length = 0
  · rw [if_pos hn, hn, levRec_zero_left]
  · rw [if_neg hn]
    by_cases hm : (normalizeAnswer b).data.length = 0
    · rw [if_pos hm, hm, levRec_zero_right]
    · rw [if_neg hm]
      simp only [dpMain]
      have hbase : ∀ i j, i ≤ (normalizeAnswer a).data.length →
          j ≤ (normalizeAnswer b).data.length → (i = 0 ∨ j = 0) →
          getCell (dpBorders (normalizeAnswer a).data.length
              (normalizeAnswer b).data.length
              (dpInit (normalizeAnswer a).data.length
                (normalizeAnswer b).data.length)) i j =
            levRec (normalizeAnswer a).data (normalizeAnswer b).data i j := by
        intro i j hi hj hcond
        rw [dpBorders_getCell hi hj]
        by_cases h0 : i = 0
        · rw [if_pos h0, h0, levRec_zero_left]
        · have hj0 : j = 0 := by
            rcases hcond with h | h
            · exact absurd h h0
            · exact h
          rw [if_neg h0, if_pos hj0, hj0, levRec_zero_right]
      obtain ⟨sh2, hget⟩ := dpMain_getCell (normalizeAnswer a).data
        (normalizeAnswer b).data (normalizeAnswer a).data.length
        (dpBorders_shaped _ _) hbase le_rfl
      exact hget _ _ le_rfl le_rfl (Or.inr le_rfl)

theorem toLower_isWhitespace (c : Char) :
    (Char.toLower c).isWhitespace = c.isWhitespace := by
  by_cases h : Char.toNat c ≥ 65 ∧ Char.toNat c ≤ 90
  · have hco := Char.ofNat_toNat c
    have h26 : c.toNat = 65 ∨ c.toNat = 66 ∨ c.toNat = 67 ∨ c.toNat = 68 ∨
        c.toNat = 69 ∨ c.toNat = 70 ∨ c.toNat = 71 ∨ c.toNat = 72 ∨
        c.toNat = 73 ∨ c.toNat = 74 ∨ c.toNat = 75 ∨ c.toNat = 76 ∨
        c.toNat = 77 ∨ c.toNat = 78 ∨ c.toNat = 79 ∨ c.toNat = 80 ∨
        c.toNat = 81 ∨ c.toNat = 82 ∨ c.toNat = 83 ∨ c.toNat = 84 ∨
        c.toNat = 85 ∨ c.toNat = 86 ∨ c.toNat = 87 ∨ c.toNat = 88 ∨
        c.toNat = 89 ∨ c.toNat = 90 := by omega
    rcases h26 with h' | h' | h' | h' | h' | h' | h' | h' | h' | h' | h' |
        h' | h' | h' | h' | h' | h' | h' | h' | h' | h' | h' | h' | h' |
        h' | h' <;>
      (rw [h'] at hco; rw [← hco]; decide)
  · simp only [Char.toLower]
    rw [if_neg h]

theorem toLower_toLower (c : Char) :
    Char.toLower (Char.toLower c) = Char.toLower c := by
  by_cases h : Char.toNat c ≥ 65 ∧ Char.toNat c ≤ 90
  · have hco := Char.ofNat_toNat c
    have h26 : c.toNat = 65 ∨ c.toNat = 66 ∨ c.toNat = 67 ∨ c.toNat = 68 ∨
        c.toNat = 69 ∨ c.toNat = 70 ∨ c.toNat = 71 ∨ c.toNat = 72 ∨
        c.toNat = 73 ∨ c.toNat = 74 ∨ c.toNat = 75 ∨ c.toNat = 76 ∨
        c.toNat = 77 ∨ c.toNat = 78 ∨ c.toNat = 79 ∨ c.toNat = 80 ∨
        c.toNat = 81 ∨ c.toNat = 82 ∨ c.toNat = 83 ∨ c.toNat = 84 ∨
        c.toNat = 85 ∨ c.toNat = 86 ∨ c.toNat = 87 ∨ c.toNat = 88 ∨
        c.toNat = 89 ∨ c.toNat = 90 := by omega
    rcases h26 with h' | h' | h' | h' | h' | h' | h' | h' | h' | h' | h' |
        h' | h' | h' | h' | h' | h' | h' | h' | h' | h' | h' | h' | h' |
        h' | h' <;>
      (rw [h'] at hco; rw [← hco]; decide)
  · have he : Char.toLower c = c := by
      simp only [Char.toLower]
      rw [if_neg h]
    rw [he]
    exact he

theorem normalizeAnswer_idem (s : String) :
    normalizeAnswer (normalizeAnswer s) = normalizeAnswer s := by
  simp only [normalizeAnswer]
  congr 1
  show ((((s.data.filter fun c => !c.isWhitespace).map
      Char.toLower).filter fun c => !c.isWhitespace).map Char.toLower) =
    (s.data.filter fun c => !c.isWhitespace).map Char.toLower
  rw [List.filter_map, List.map_map]
  have hP : ((fun c => !c.isWhitespace) ∘ Char.toLower) =
      fun c : Char => !c.isWhitespace := by
    funext c
    show (!(Char.toLower c).isWhitespace) = (!c.isWhitespace)
    rw [toLower_isWhitespace]
  have hT : Char.toLower ∘ Char.toLower = Char.toLower := by
    funext c
    exact toLower_toLower c
  rw [hP, hT, List.filter_filter]
  have hPP : (fun c : Char => (!c.isWhitespace) && !c.isWhitespace) =
      fun c : Char => !c.isWhitespace := by
    funext c
    exact Bool.and_self _
  rw [hPP]

/-- C5: `levenshtein a b` equals the classic Levenshtein distance
(insertions, deletions and substitutions each costing 1) between the
normalized strings `normalizeAnswer a` and `normalizeAnswer b`, i.e. the
value `dp[n][m]` of the dynamic-programming recurrence stated in the
spec. -/
theorem lev_code_eq_classic (a b : String) :
    levenshtein a b =
      levClassic (normalizeAnswer a).data (normalizeAnswer b).data := by
  have h1 := levenshtein_eq_levRec a b
  have h2 := levRec_eq_levClassic (normalizeAnswer a).data
    (normalizeAnswer b).data (normalizeAnswer a).data.length
    (normalizeAnswer b).data.length le_rfl le_rfl
  rw [List.take_length, List.take_length] at h2
  exact h1.trans h2

theorem levenshtein_correct (a b : String) :
    levenshtein a b =
      levClassic (normalizeAnswer a).data (normalizeAnswer b).data ∧
    levenshtein a b =
      levRec (normalizeAnswer a).data (normalizeAnswer b).data
        (normalizeAnswer a).data.length (normalizeAnswer b).data.length :=
  ⟨lev_code_eq_classic a b, levenshtein_eq_levRec a b⟩

/-- C4: `isCloseMatch typed answer` is true iff the normalized typed
string is nonempty and either equals the normalized answer or is within
Levenshtein distance `tol` of it, where `tol = 2` iff the normalized
answer has length at least 6 and `tol = 1` otherwise; and
`isCloseMatch "" answer` is false for every answer. -/
theorem isCloseMatch_spec (typed answer : String) :
    (isCloseMatch typed answer = true ↔
      (normalizeAnswer typed ≠ "" ∧
        (normalizeAnswer typed = normalizeAnswer answer ∨
          levClassic (normalizeAnswer typed).data
              (normalizeAnswer answer).data ≤
            (if 6 ≤ (normalizeAnswer answer).length then 2 else 1)))) ∧
    isCloseMatch "" answer = false := by
  refine ⟨?_, rfl⟩
  simp only [isCloseMatch]
  by_cases ht : normalizeAnswer typed = ""
  · rw [if_pos ht, ht]
    simp
  · rw [if_neg ht]
    by_cases heq : normalizeAnswer typed = normalizeAnswer answer
    · rw [if_pos heq]
      exact iff_of_true rfl ⟨ht, Or.inl heq⟩
    · rw [if_neg heq]
      have hlev : levenshtein (normalizeAnswer typed)
          (normalizeAnswer answer) =
            levClassic (normalizeAnswer typed).data
              (normalizeAnswer answer).data := by
        have h3 := lev_code_eq_classic (normalizeAnswer typed)
          (normalizeAnswer answer)
        rw [normalizeAnswer_idem, normalizeAnswer_idem] at h3
        exact h3
      rw [hlev]
      simp [ht, heq]

/-- C10: when the answer normalizes to the empty string and the typed
string normalizes to a single character, `isCloseMatch` accepts: the
tolerance for the empty answer is 1 and the edit distance is exactly 1. -/
theorem isCloseMatch_blank_answer (typed answer : String)
    (ha : normalizeAnswer answer = "")
    (ht : (normalizeAnswer typed).length = 1) :
    isCloseMatch typed answer = true := by
  have htne : normalizeAnswer typed ≠ "" := by
    intro hc
    rw [hc] at ht
    exact absurd ht (by decide)
  have hne2 : normalizeAnswer typed ≠ normalizeAnswer answer := by
    rw [ha]
    exact htne
  simp only [isCloseMatch]
  rw [if_neg htne, if_neg hne2, ha]
  have hlen : (normalizeAnswer typed).data.length = 1 := ht
  have hdist : levenshtein (normalizeAnswer typed) "" = 1 := by
    simp only [levenshtein]
    rw [normalizeAnswer_idem]
    have h0 : ¬(normalizeAnswer typed).data.length = 0 := by omega
    rw [if_neg h0,
      if_pos (show (normalizeAnswer "").data.length = 0 from rfl)]
    exact hlen
  rw [hdist]
  decide

/-- Witness for C10 at the single character `"a"` against the
all-whitespace answer `" "`. -/
theorem isCloseMatch_blank_answer_witness : isCloseMatch "a" " " = true :=
  isCloseMatch_blank_answer "a" " " (by decide) (by decide)

/-- C9: for a card that carries a due timestamp, `isDue card now` is true
iff `due ≤ now`. -/
theorem isDue_iff (α : Type) (card : Card α) (d now : ℚ)
    (h : card.due = some d) : isDue card now = true ↔ d ≤ now := by
  simp [isDue, h]

/-- Witness for C9 at a concrete card and timestamp. -/
theorem isDue_iff_witness :
    isDue (⟨none, none, none, none, none, some 3, ()⟩ : Card Unit) 5 = true ↔
      (3 : ℚ) ≤ 5 :=
  isDue_iff Unit _ 3 5 rfl

end Topik
